import Mathlib

/-!
Verification of the source-side backfill protocol (`backfiller.hpp`) and the
replication timestamp utilities (`utils.hpp`).

The repository ships `src/clustering/immediate_consistency/backfiller.hpp`
(declarations of `backfiller_t`, its inner `client_t` and `session_t`, the
four message handlers, the fifo enforcer and the semaphore throttle) and
`src/utils.hpp` (fully inline `repli_timestamp_t`).  The handler bodies,
the fifo enforcer and the semaphore are declared but their implementations
are not part of the shipped sources, so those operations are modelled from
the specification, as marked on each definition.  `get_business_card` and
`repli_timestamp_t` are translated directly from the source.
-/

/- ---------------------------------------------------------------- -/
/- Data model                                                        -/
/- ---------------------------------------------------------------- -/

/-- Translated from `utils.hpp` lines 16-37: `repli_timestamp_t` wraps a
`uint32_t time` counter.  We model the field as a `Nat` together with the
explicit `% 2^32` wraparound where the C++ arithmetic overflows. -/
structure repli_timestamp_t where
  time : Nat
deriving DecidableEq

/-- `utils.hpp` line 22-24: `bool operator<(repli_timestamp_t t) const
\x7b return time < t.time; \x7d`. -/
def repli_timestamp_t.lt (a b : repli_timestamp_t) : Bool :=
  decide (a.time < b.time)

/-- `utils.hpp` lines 29-33: `next()` builds a timestamp whose `time` is
`time + 1`; on `uint32_t` this wraps modulo `2^32`. -/
def repli_timestamp_t.next (t : repli_timestamp_t) : repli_timestamp_t :=
  ⟨(t.time + 1) % 2 ^ 32⟩

/-- Keys are modelled as naturals; `key_range_t` is the half-open interval
`[left, right)` (the source's `key_range_t` with opaque store keys). -/
structure key_range_t where
  left : Nat
  right : Nat
deriving DecidableEq

/-- `r` lies entirely inside `q` (interval containment). -/
def key_range_t.is_subrange (r q : key_range_t) : Bool :=
  decide (q.left ≤ r.left ∧ r.right ≤ q.right)

/-- The two ranges share at least one key. -/
def key_range_t.overlaps (r q : key_range_t) : Bool :=
  decide (max r.left q.left < min r.right q.right)

/-- Convex hull of two ranges (the single `key_range_t pre_atom_range`
field of `client_t` forces merged bookkeeping to be one interval). -/
def key_range_t.merge (r q : key_range_t) : key_range_t :=
  ⟨min r.left q.left, max r.right q.right⟩

/-- Modelled from the spec: a pre-atom is "a lightweight descriptor for one
key's change — key range plus diffing metadata (e.g. content digest,
version) but no payload" (`backfill_pre_atom_t`, whose definition lives in
`backfill_metadata.hpp`, not among the shipped sources). -/
structure backfill_pre_atom_t where
  range : key_range_t
  version : Nat
deriving DecidableEq

/-- Modelled from the spec: the state of `session_t` (`backfiller.hpp`
lines 36-51): the session id, the range being transferred
(`session_range`), the currently held semaphore reservation
(`atom_throttler_acq`, in atom-bytes) and the pre-atoms consumed from the
client's queue (`pre_atoms_consumed`). -/
structure session_t where
  session_id : Nat
  session_range : key_range_t
  atom_throttler_acq : Nat
  pre_atoms_consumed : List backfill_pre_atom_t
deriving DecidableEq

/-- Modelled from the spec: the per-backfillee state of `client_t`
(`backfiller.hpp` lines 79-83): the queue of not-yet-consumed pre-atoms,
the range they cover (absent until the first `pre_atoms` request), and the
optional single active session (`scoped_ptr_t<session_t> current_session`). -/
structure client_t where
  pre_atom_queue : List backfill_pre_atom_t
  pre_atom_range : Option key_range_t
  current_session : Option session_t
deriving DecidableEq

/-- Outcome reported to the caller by a message handler. -/
inductive handler_result_t where
  | ok
  | range_mismatch
  | session_active
  | ignored
  | bad_session
  | ack_too_large
  | protocol_error_overlap
deriving DecidableEq

/- ---------------------------------------------------------------- -/
/- Message handlers (modelled from the spec; the bodies of             -/
/- on_pre_atoms / on_go / on_stop / on_ack_atoms are declared at       -/
/- backfiller.hpp lines 53-72 but not implemented in the shipped src)  -/
/- ---------------------------------------------------------------- -/

/-- Modelled from the spec: `on_pre_atoms` (missing body of
`client_t::on_pre_atoms`, `backfiller.hpp` lines 53-57).  Appends pre-atom
hints for `range` to the pending queue and records the newly covered range;
if a previous pending range overlaps, the ranges are merged; a re-request
for the identical range replaces the queued atoms; an overlapping but
non-identical re-request is a protocol error in which the later request
wins and the former request's unconsumed atoms are discarded (atoms of the
two requests are never merged). -/
def client_t.on_pre_atoms (c : client_t) (range : key_range_t)
    (atoms : List backfill_pre_atom_t) : handler_result_t × client_t :=
  match c.pre_atom_range with
  | none =>
      (.ok, { c with pre_atom_queue := atoms, pre_atom_range := some range })
  | some r =>
      if range = r then
        (.ok, { c with pre_atom_queue := atoms })
      else if range.overlaps r then
        (.protocol_error_overlap,
          { c with pre_atom_queue := atoms,
                   pre_atom_range := some (r.merge range) })
      else
        (.ok, { c with pre_atom_queue := c.pre_atom_queue ++ atoms,
                       pre_atom_range := some (r.merge range) })

/-- Modelled from the spec: `on_go` (missing body of `client_t::on_go`,
`backfiller.hpp` lines 58-62).  Fails if a session is already active;
otherwise succeeds iff `range` is fully covered by the queued pre-atom
range, consuming the matching queue entries into the new session (marked
in-flight, not deleted); on failure nothing changes and no atoms are sent. -/
def client_t.on_go (c : client_t) (sid : Nat) (range : key_range_t) :
    handler_result_t × client_t :=
  match c.current_session with
  | some _ => (.session_active, c)
  | none =>
      match c.pre_atom_range with
      | none => (.range_mismatch, c)
      | some q =>
          if range.is_subrange q then
            let s : session_t :=
              { session_id := sid,
                session_range := range,
                atom_throttler_acq := 0,
                pre_atoms_consumed :=
                  c.pre_atom_queue.filter (fun a => a.range.is_subrange range) }
            (.ok, { c with
              pre_atom_queue :=
                c.pre_atom_queue.filter (fun a => !(a.range.is_subrange range)),
              current_session := some s })
          else
            (.range_mismatch, c)

/-- Modelled from the spec: `on_stop` (missing body of `client_t::on_stop`,
`backfiller.hpp` lines 63-66).  Cancels the session matching `session_id`:
its throttle reservation is released and its unconsumed pre-atom
bookkeeping returns to the client; a mismatched id is a no-op reported as
ignored. -/
def client_t.on_stop (c : client_t) (sid : Nat) : handler_result_t × client_t :=
  match c.current_session with
  | none => (.ignored, c)
  | some s =>
      if s.session_id = sid then
        (.ok, { c with
          pre_atom_queue := c.pre_atom_queue ++ s.pre_atoms_consumed,
          current_session := none })
      else
        (.ignored, c)

/-- Modelled from the spec: `on_ack_atoms` (missing body of
`client_t::on_ack_atoms`, `backfiller.hpp` lines 67-72).  Valid only when
`session_id` matches the active session; releases `size` units of throttle
capacity and drops the acknowledged portion of the session's consumed
pre-atoms; a size exceeding the held reservation is rejected without
releasing anything. -/
def client_t.on_ack_atoms (c : client_t) (sid : Nat) (range : key_range_t)
    (size : Nat) : handler_result_t × client_t :=
  match c.current_session with
  | none => (.bad_session, c)
  | some s =>
      if s.session_id = sid then
        if size ≤ s.atom_throttler_acq then
          let s2 : session_t :=
            { s with
              atom_throttler_acq := s.atom_throttler_acq - size,
              pre_atoms_consumed :=
                s.pre_atoms_consumed.filter
                  (fun a => !(a.range.is_subrange range)) }
          (.ok, { c with current_session := some s2 })
        else
          (.ack_too_large, c)
      else
        (.bad_session, c)

/-- Modelled from the spec: one step of the session's atom-streaming loop
(missing body of `session_t::run`, `backfiller.hpp` line 44) acquiring
`size` atom-bytes from the `new_semaphore_t atom_throttler` of capacity
`capacity`; when the throttle is saturated the acquisition suspends and
the state is unchanged. -/
def client_t.send_atom (capacity : Nat) (c : client_t) (size : Nat) : client_t :=
  match c.current_session with
  | none => c
  | some s =>
      if s.atom_throttler_acq + size ≤ capacity then
        let s2 : session_t :=
          { s with atom_throttler_acq := s.atom_throttler_acq + size }
        { c with current_session := some s2 }
      else
        c

/-- The atom-bytes currently sent and not yet acknowledged (the active
session's held reservation; zero when no session is active). -/
def client_inflight (c : client_t) : Nat :=
  match c.current_session with
  | none => 0
  | some s => s.atom_throttler_acq

/-- The empty client state a fresh `client_t` starts from. -/
def client_init : client_t :=
  { pre_atom_queue := [], pre_atom_range := none, current_session := none }

/-- The commands that can act on a client: the four inbound messages plus
the session's internal atom-send step. -/
inductive client_cmd_t where
  | pre_atoms (range : key_range_t) (atoms : List backfill_pre_atom_t)
  | go (session_id : Nat) (range : key_range_t)
  | stop (session_id : Nat)
  | ack_atoms (session_id : Nat) (range : key_range_t) (size : Nat)
  | send_atom (size : Nat)
deriving DecidableEq

/-- Apply one command to a client (dropping the reported result). -/
def client_t.step (capacity : Nat) (c : client_t) : client_cmd_t → client_t
  | .pre_atoms r a => (c.on_pre_atoms r a).2
  | .go sid r => (c.on_go sid r).2
  | .stop sid => (c.on_stop sid).2
  | .ack_atoms sid r sz => (c.on_ack_atoms sid r sz).2
  | .send_atom sz => client_t.send_atom capacity c sz

/-- Run a command sequence from the fresh client state. -/
def client_run (capacity : Nat) (cmds : List client_cmd_t) : client_t :=
  cmds.foldl (client_t.step capacity) client_init

/- ---------------------------------------------------------------- -/
/- Throttle accounting (for the consumed-versus-released invariant)  -/
/- ---------------------------------------------------------------- -/

/-- Whether the throttle admits sending `size` atom-bytes now: a session
must be active and the enlarged reservation must fit the capacity. -/
def send_admitted (capacity : Nat) (c : client_t) (size : Nat) : Bool :=
  match c.current_session with
  | none => false
  | some s => decide (s.atom_throttler_acq + size ≤ capacity)

/-- A client paired with the running totals of atom-bytes actually sent
and atom-bytes released by accepted acknowledgments. -/
structure acct_state_t where
  client : client_t
  sent_total : Nat
  acked_total : Nat
deriving DecidableEq

/-- One accounted step: the client steps as usual while the totals record
admitted sends and accepted acknowledgments. -/
def acct_step (capacity : Nat) (st : acct_state_t) (cmd : client_cmd_t) :
    acct_state_t :=
  { client := st.client.step capacity cmd,
    sent_total := st.sent_total +
      (match cmd with
       | .send_atom sz => if send_admitted capacity st.client sz then sz else 0
       | _ => 0),
    acked_total := st.acked_total +
      (match cmd with
       | .ack_atoms sid r sz =>
           if (st.client.on_ack_atoms sid r sz).1 = handler_result_t.ok
           then sz else 0
       | _ => 0) }

/-- Run an accounted command sequence from the fresh client state. -/
def acct_run (capacity : Nat) (cmds : List client_cmd_t) : acct_state_t :=
  cmds.foldl (acct_step capacity) ⟨client_init, 0, 0⟩

/- ---------------------------------------------------------------- -/
/- Ordering enforcer (fifo enforcer)                                 -/
/- ---------------------------------------------------------------- -/

/-- Modelled from the spec: the per-client reorder buffer behind the
`fifo_source_t` / `fifo_sink_t` pair (`backfiller.hpp` lines 85-86, whose
implementation is not among the shipped sources): the next expected write
token, the buffered not-yet-applicable tokens, and the order in which
messages have been handed to the handlers so far. -/
structure fifo_sink_t where
  next : Nat
  buffer : List Nat
  output : List Nat
deriving DecidableEq

/-- Release buffered messages in token order for as long as the next
expected token is present; `fuel` bounds the loop (one buffered message is
released per iteration). -/
def fifo_drain : Nat → fifo_sink_t → fifo_sink_t
  | 0, s => s
  | fuel + 1, s =>
      if s.next ∈ s.buffer then
        fifo_drain fuel
          { next := s.next + 1,
            buffer := s.buffer.erase s.next,
            output := s.output ++ [s.next] }
      else
        s

/-- A message with write token `token` arrives: it is buffered, then every
buffered message whose turn has come is released in order. -/
def fifo_deliver (s : fifo_sink_t) (token : Nat) : fifo_sink_t :=
  fifo_drain (s.buffer.length + 1) { s with buffer := token :: s.buffer }

/-- The fifo sink before any message has arrived. -/
def fifo_init : fifo_sink_t := ⟨0, [], []⟩

/-- Deliver a whole arrival sequence of write tokens. -/
def fifo_run (tokens : List Nat) : fifo_sink_t :=
  tokens.foldl fifo_deliver fifo_init

/-- An inbound backfill message (one of the four mailboxes of
`backfiller.hpp` lines 88-91). -/
inductive backfill_msg_t where
  | pre_atoms (range : key_range_t) (atoms : List backfill_pre_atom_t)
  | go (session_id : Nat) (range : key_range_t)
  | stop (session_id : Nat)
  | ack_atoms (session_id : Nat) (range : key_range_t) (size : Nat)
deriving DecidableEq

/-- Invoke the handler a message is addressed to on the client state. -/
def client_t.handle (c : client_t) (m : backfill_msg_t) : client_t :=
  match m with
  | .pre_atoms r a => (c.on_pre_atoms r a).2
  | .go sid r => (c.on_go sid r).2
  | .stop sid => (c.on_stop sid).2
  | .ack_atoms sid r sz => (c.on_ack_atoms sid r sz).2

/- ---------------------------------------------------------------- -/
/- Backfiller business card                                          -/
/- ---------------------------------------------------------------- -/

/-- The store collaborator: only its region is read by the backfiller
(`store->get_region()`); the region of a store is fixed. -/
structure store_view_t where
  region : key_range_t
deriving DecidableEq

/-- The registrar collaborator: its business card is the registration
endpoint (`registrar.get_business_card()`), modelled as an opaque number. -/
structure registrar_t where
  registration_endpoint : Nat
deriving DecidableEq

/-- `backfiller_bcard_t`: the published capability descriptor carrying the
store's region and the registration address. -/
structure backfiller_bcard_t where
  region : key_range_t
  registration_address : Nat
deriving DecidableEq

/-- The state of `backfiller_t` read by `get_business_card`: the `store`
and `registrar` members (`backfiller.hpp` lines 96-98); both are `const`
members never reassigned over the backfiller's lifetime. -/
structure backfiller_t where
  store : store_view_t
  registrar : registrar_t
deriving DecidableEq

/-- Translated from `backfiller.hpp` lines 24-28: `get_business_card()
\x7b return backfiller_bcard_t \x7b store->get_region(),
registrar.get_business_card() \x7d; \x7d`. -/
def backfiller_t.get_business_card (b : backfiller_t) : backfiller_bcard_t :=
  { region := b.store.region,
    registration_address := b.registrar.registration_endpoint }

/- ---------------------------------------------------------------- -/
/- Theorems                                                          -/
/- ---------------------------------------------------------------- -/

/-- Claim C9: `get_business_card` returns a capability descriptor whose
region field equals the store's region and whose registration address
equals the registrar's registration endpoint; since `get_business_card` is
a pure function of the backfiller's `const` members, the descriptor is the
same at every call over the backfiller's lifetime. -/
theorem backfiller_business_card_spec (b : backfiller_t) :
    b.get_business_card.region = b.store.region ∧
    b.get_business_card.registration_address =
      b.registrar.registration_endpoint :=
  ⟨rfl, rfl⟩

/-- Claim C10: for every `repli_timestamp_t` `t` (whose `uint32_t` field
is below `2^32`), `t.next()` has time field `t.time + 1` modulo `2^32`,
and `t < t.next()` holds iff `t.time` is not `2^32 - 1`: the counter is
not strictly monotonic at the wraparound point. -/
theorem repli_timestamp_next_spec (t : repli_timestamp_t)
    (h : t.time < 2 ^ 32) :
    t.next.time = (t.time + 1) % 2 ^ 32 ∧
    (t.lt t.next = true ↔ t.time ≠ 2 ^ 32 - 1) := by
  refine ⟨rfl, ?_⟩
  simp only [repli_timestamp_t.lt, repli_timestamp_t.next,
    decide_eq_true_eq]
  omega

/-- Witness for C10 at the concrete timestamp 5. -/
theorem repli_timestamp_next_spec_witness :
    (repli_timestamp_t.mk 5).time < 2 ^ 32 ∧
    ((repli_timestamp_t.mk 5).next.time =
        ((repli_timestamp_t.mk 5).time + 1) % 2 ^ 32 ∧
      ((repli_timestamp_t.mk 5).lt (repli_timestamp_t.mk 5).next = true ↔
        (repli_timestamp_t.mk 5).time ≠ 2 ^ 32 - 1)) :=
  ⟨by norm_num, repli_timestamp_next_spec ⟨5⟩ (by norm_num)⟩

/-- Claim C3: the client's state holds at most one session
(`current_session : Option session_t`); a `go` arriving while a session is
already active fails with `session_active` and leaves the client — in
particular the active session — completely undisturbed. -/
theorem client_single_active_session (c : client_t) (s : session_t)
    (sid : Nat) (range : key_range_t) (h : c.current_session = some s) :
    c.on_go sid range = (handler_result_t.session_active, c) := by
  unfold client_t.on_go
  rw [h]

/-- Witness for C3 on a concrete client with an active session. -/
theorem client_single_active_session_witness :
    (client_t.mk [] none (some ⟨1, ⟨0, 5⟩, 0, []⟩)).current_session =
        some ⟨1, ⟨0, 5⟩, 0, []⟩ ∧
    (client_t.mk [] none (some ⟨1, ⟨0, 5⟩, 0, []⟩)).on_go 2 ⟨0, 3⟩ =
      (handler_result_t.session_active,
        client_t.mk [] none (some ⟨1, ⟨0, 5⟩, 0, []⟩)) :=
  ⟨rfl, client_single_active_session _ ⟨1, ⟨0, 5⟩, 0, []⟩ 2 ⟨0, 3⟩ rfl⟩

/-- Claim C4: with no active session, `on_go` succeeds iff the requested
range is fully covered by the currently queued pre-atom range; when it is
not covered the handler reports a range mismatch, no session is created
and the client is unchanged (so no atoms are sent). -/
theorem client_go_range_containment (c : client_t) (sid : Nat)
    (range : key_range_t) (h : c.current_session = none) :
    ((c.on_go sid range).1 = handler_result_t.ok ↔
      ∃ q, c.pre_atom_range = some q ∧ range.is_subrange q = true) ∧
    ((c.on_go sid range).1 ≠ handler_result_t.ok →
      (c.on_go sid range).1 = handler_result_t.range_mismatch ∧
      (c.on_go sid range).2 = c) := by
  unfold client_t.on_go
  rw [h]
  cases hq : c.pre_atom_range with
  | none => simp
  | some q =>
      by_cases hs : range.is_subrange q = true
      · simp [hs]
      · simp [hs]

/-- Witness for C4 on a concrete client with no active session: the `go`
range is covered in one case and not covered in the other. -/
theorem client_go_range_containment_witness :
    (client_t.mk [] (some ⟨0, 50⟩) none).current_session = none ∧
    (((client_t.mk [] (some ⟨0, 50⟩) none).on_go 1 ⟨60, 70⟩).1 =
        handler_result_t.ok ↔
      ∃ q, (client_t.mk [] (some ⟨0, 50⟩) none).pre_atom_range = some q ∧
        key_range_t.is_subrange ⟨60, 70⟩ q = true) ∧
    (((client_t.mk [] (some ⟨0, 50⟩) none).on_go 1 ⟨60, 70⟩).1 ≠
        handler_result_t.ok →
      ((client_t.mk [] (some ⟨0, 50⟩) none).on_go 1 ⟨60, 70⟩).1 =
        handler_result_t.range_mismatch ∧
      ((client_t.mk [] (some ⟨0, 50⟩) none).on_go 1 ⟨60, 70⟩).2 =
        client_t.mk [] (some ⟨0, 50⟩) none) :=
  ⟨rfl,
    (client_go_range_containment (client_t.mk [] (some ⟨0, 50⟩) none)
      1 ⟨60, 70⟩ rfl).1,
    (client_go_range_containment (client_t.mk [] (some ⟨0, 50⟩) none)
      1 ⟨60, 70⟩ rfl).2⟩

/-- Claim C7: stopping the active session with its matching id releases
all throttle capacity that session held (no bytes remain in flight),
returns its unconsumed pre-atom bookkeeping to the client's queue, and a
subsequent `go` over the same range succeeds. -/
theorem client_stop_clean_cancellation (c : client_t) (s : session_t)
    (q : key_range_t) (sid2 : Nat)
    (h1 : c.current_session = some s) (h2 : c.pre_atom_range = some q)
    (h3 : s.session_range.is_subrange q = true) :
    client_inflight (c.on_stop s.session_id).2 = 0 ∧
    (c.on_stop s.session_id).2.pre_atom_queue =
      c.pre_atom_queue ++ s.pre_atoms_consumed ∧
    ((c.on_stop s.session_id).2.on_go sid2 s.session_range).1 =
      handler_result_t.ok := by
  unfold client_t.on_stop
  rw [h1]
  simp only [if_pos rfl]
  refine ⟨rfl, rfl, ?_⟩
  unfold client_t.on_go
  simp [h2, h3]

/-- Witness for C7 on a concrete client whose session covers `[10, 30)`
inside the queued range `[0, 50)`. -/
theorem client_stop_clean_cancellation_witness :
    (client_t.mk [] (some ⟨0, 50⟩)
        (some ⟨1, ⟨10, 30⟩, 7, [⟨⟨20, 21⟩, 0⟩]⟩)).current_session =
      some ⟨1, ⟨10, 30⟩, 7, [⟨⟨20, 21⟩, 0⟩]⟩ ∧
    (client_t.mk [] (some ⟨0, 50⟩)
        (some ⟨1, ⟨10, 30⟩, 7, [⟨⟨20, 21⟩, 0⟩]⟩)).pre_atom_range =
      some ⟨0, 50⟩ ∧
    key_range_t.is_subrange ⟨10, 30⟩ ⟨0, 50⟩ = true ∧
    (client_inflight
        ((client_t.mk [] (some ⟨0, 50⟩)
          (some ⟨1, ⟨10, 30⟩, 7, [⟨⟨20, 21⟩, 0⟩]⟩)).on_stop 1).2 = 0 ∧
      ((client_t.mk [] (some ⟨0, 50⟩)
          (some ⟨1, ⟨10, 30⟩, 7, [⟨⟨20, 21⟩, 0⟩]⟩)).on_stop 1).2.pre_atom_queue =
        [] ++ [⟨⟨20, 21⟩, 0⟩] ∧
      (((client_t.mk [] (some ⟨0, 50⟩)
          (some ⟨1, ⟨10, 30⟩, 7, [⟨⟨20, 21⟩, 0⟩]⟩)).on_stop 1).2.on_go
            2 ⟨10, 30⟩).1 = handler_result_t.ok) :=
  ⟨rfl, rfl, by decide,
    client_stop_clean_cancellation _ ⟨1, ⟨10, 30⟩, 7, [⟨⟨20, 21⟩, 0⟩]⟩
      ⟨0, 50⟩ 2 rfl rfl (by decide)⟩

/-- Claim C8: a `pre_atoms` request whose range overlaps the pending range
merges the two ranges in the client's bookkeeping; the queued atoms are
replaced by the new request's atoms — an exact re-request replaces them
with result ok, an overlapping non-identical re-request replaces them too
but is reported as a protocol error (the later request wins, the former
request's unconsumed atoms are discarded, and atoms of the two requests
are never merged). -/
theorem client_pre_atoms_overlap_merge (c : client_t) (r range : key_range_t)
    (atoms : List backfill_pre_atom_t)
    (h : c.pre_atom_range = some r) (hov : range.overlaps r = true) :
    (c.on_pre_atoms range atoms).2.pre_atom_range = some (r.merge range) ∧
    (c.on_pre_atoms range atoms).2.pre_atom_queue = atoms ∧
    (c.on_pre_atoms range atoms).1 =
      (if range = r then handler_result_t.ok
       else handler_result_t.protocol_error_overlap) := by
  unfold client_t.on_pre_atoms
  rw [h]
  by_cases he : range = r
  · subst he
    simp [key_range_t.merge]
  · simp [he, hov]

/-- Witness for C8 with pending range `[0, 10)` and an overlapping
non-identical re-request for `[5, 15)`. -/
theorem client_pre_atoms_overlap_merge_witness :
    (client_t.mk [⟨⟨2, 3⟩, 0⟩] (some ⟨0, 10⟩) none).pre_atom_range =
      some ⟨0, 10⟩ ∧
    key_range_t.overlaps ⟨5, 15⟩ ⟨0, 10⟩ = true ∧
    (((client_t.mk [⟨⟨2, 3⟩, 0⟩] (some ⟨0, 10⟩) none).on_pre_atoms
        ⟨5, 15⟩ [⟨⟨7, 8⟩, 1⟩]).2.pre_atom_range =
      some (key_range_t.merge ⟨0, 10⟩ ⟨5, 15⟩) ∧
    ((client_t.mk [⟨⟨2, 3⟩, 0⟩] (some ⟨0, 10⟩) none).on_pre_atoms
        ⟨5, 15⟩ [⟨⟨7, 8⟩, 1⟩]).2.pre_atom_queue = [⟨⟨7, 8⟩, 1⟩] ∧
    ((client_t.mk [⟨⟨2, 3⟩, 0⟩] (some ⟨0, 10⟩) none).on_pre_atoms
        ⟨5, 15⟩ [⟨⟨7, 8⟩, 1⟩]).1 =
      (if (⟨5, 15⟩ : key_range_t) = ⟨0, 10⟩ then handler_result_t.ok
       else handler_result_t.protocol_error_overlap)) :=
  ⟨rfl, by decide,
    client_pre_atoms_overlap_merge _ ⟨0, 10⟩ ⟨5, 15⟩ [⟨⟨7, 8⟩, 1⟩]
      rfl (by decide)⟩

/- Helper lemmas about the in-flight byte count under each operation. -/

lemma on_pre_atoms_session_eq (c : client_t) (r : key_range_t)
    (a : List backfill_pre_atom_t) :
    (c.on_pre_atoms r a).2.current_session = c.current_session := by
  unfold client_t.on_pre_atoms
  cases c.pre_atom_range with
  | none => rfl
  | some q =>
      dsimp only
      split
      · rfl
      · split <;> rfl

lemma inflight_on_pre_atoms (c : client_t) (r : key_range_t)
    (a : List backfill_pre_atom_t) :
    client_inflight (c.on_pre_atoms r a).2 = client_inflight c := by
  unfold client_inflight
  rw [on_pre_atoms_session_eq]

lemma inflight_on_go (c : client_t) (sid : Nat) (r : key_range_t) :
    client_inflight (c.on_go sid r).2 = client_inflight c := by
  cases hs : c.current_session with
  | some s => simp [client_t.on_go, hs]
  | none =>
      cases hq : c.pre_atom_range with
      | none => simp [client_t.on_go, hs, hq]
      | some q =>
          by_cases hsub : r.is_subrange q = true
          · simp [client_t.on_go, hs, hq, hsub, client_inflight]
          · simp [client_t.on_go, hs, hq, hsub]

lemma inflight_on_stop (c : client_t) (sid : Nat) :
    client_inflight (c.on_stop sid).2 ≤ client_inflight c := by
  cases hs : c.current_session with
  | none => simp [client_t.on_stop, hs]
  | some s =>
      by_cases hid : s.session_id = sid
      · simp [client_t.on_stop, hs, hid, client_inflight]
      · simp [client_t.on_stop, hs, hid]

lemma on_ack_atoms_cases (c : client_t) (sid : Nat) (r : key_range_t)
    (sz : Nat) :
    ((c.on_ack_atoms sid r sz).1 = handler_result_t.ok ∧
      (∃ s, c.current_session = some s ∧ sz ≤ s.atom_throttler_acq ∧
        client_inflight (c.on_ack_atoms sid r sz).2 =
          s.atom_throttler_acq - sz)) ∨
    ((c.on_ack_atoms sid r sz).1 ≠ handler_result_t.ok ∧
      (c.on_ack_atoms sid r sz).2 = c) := by
  unfold client_t.on_ack_atoms
  cases hs : c.current_session with
  | none => exact Or.inr ⟨by simp, rfl⟩
  | some s =>
      dsimp only
      by_cases hid : s.session_id = sid
      · rw [if_pos hid]
        by_cases hsz : sz ≤ s.atom_throttler_acq
        · rw [if_pos hsz]
          exact Or.inl ⟨rfl, s, rfl, hsz, rfl⟩
        · rw [if_neg hsz]
          exact Or.inr ⟨by simp, rfl⟩
      · rw [if_neg hid]
        exact Or.inr ⟨by simp, rfl⟩

lemma inflight_on_ack (c : client_t) (sid : Nat) (r : key_range_t)
    (sz : Nat) :
    client_inflight (c.on_ack_atoms sid r sz).2 ≤ client_inflight c := by
  rcases on_ack_atoms_cases c sid r sz with ⟨-, s, hs, hsz, hinf⟩ | ⟨-, heq⟩
  · rw [hinf]
    unfold client_inflight
    rw [hs]
    exact Nat.sub_le _ _
  · rw [heq]

lemma inflight_send_atom (capacity : Nat) (c : client_t) (sz : Nat) :
    (send_admitted capacity c sz = true ∧
      client_inflight (client_t.send_atom capacity c sz) =
        client_inflight c + sz ∧
      client_inflight c + sz ≤ capacity) ∨
    (send_admitted capacity c sz = false ∧
      client_t.send_atom capacity c sz = c) := by
  unfold send_admitted client_t.send_atom client_inflight
  cases hs : c.current_session with
  | none => exact Or.inr ⟨rfl, rfl⟩
  | some s =>
      dsimp only
      by_cases hcap : s.atom_throttler_acq + sz ≤ capacity
      · rw [if_pos hcap]
        exact Or.inl ⟨by simpa using hcap, rfl, hcap⟩
      · rw [if_neg hcap]
        exact Or.inr ⟨by simpa using hcap, rfl⟩

lemma step_inflight_le (capacity : Nat) (c : client_t) (cmd : client_cmd_t)
    (h : client_inflight c ≤ capacity) :
    client_inflight (c.step capacity cmd) ≤ capacity := by
  cases cmd with
  | pre_atoms r a =>
      simp only [client_t.step]
      rw [inflight_on_pre_atoms]
      exact h
  | go sid r =>
      simp only [client_t.step]
      rw [inflight_on_go]
      exact h
  | stop sid =>
      simp only [client_t.step]
      exact Nat.le_trans (inflight_on_stop c sid) h
  | ack_atoms sid r sz =>
      simp only [client_t.step]
      exact Nat.le_trans (inflight_on_ack c sid r sz) h
  | send_atom sz =>
      simp only [client_t.step]
      rcases inflight_send_atom capacity c sz with ⟨-, heq, hle⟩ | ⟨-, heq⟩
      · rw [heq]
        exact hle
      · rw [heq]
        exact h

lemma run_inflight_le (capacity : Nat) (cmds : List client_cmd_t) :
    ∀ c : client_t, client_inflight c ≤ capacity →
      client_inflight (cmds.foldl (client_t.step capacity) c) ≤ capacity := by
  induction cmds with
  | nil => intro c h; exact h
  | cons cmd cmds ih =>
      intro c h
      exact ih _ (step_inflight_le capacity c cmd h)

/-- Claim C2: in every run of the client under throttle capacity
`capacity`, the atom-bytes sent and not yet acknowledged never exceed the
capacity; and when the throttle is saturated (the enlarged reservation
would overflow the capacity) the atom-send step suspends, leaving the
state unchanged until an acknowledgment frees capacity. -/
theorem client_throttle_admission_bound :
    (∀ (capacity : Nat) (cmds : List client_cmd_t),
      client_inflight (client_run capacity cmds) ≤ capacity) ∧
    (∀ (capacity : Nat) (c : client_t) (s : session_t) (size : Nat),
      c.current_session = some s →
      capacity < s.atom_throttler_acq + size →
      client_t.send_atom capacity c size = c) := by
  constructor
  · intro capacity cmds
    exact run_inflight_le capacity cmds client_init (Nat.zero_le _)
  · intro capacity c s size hs hcap
    unfold client_t.send_atom
    rw [hs]
    dsimp only
    rw [if_neg (by omega)]

/-- Witness for C2: a concrete run, and a saturated send on a concrete
client that leaves the state unchanged. -/
theorem client_throttle_admission_bound_witness :
    client_inflight
        (client_run 10 [client_cmd_t.pre_atoms ⟨0, 50⟩ [],
          client_cmd_t.go 1 ⟨0, 50⟩, client_cmd_t.send_atom 5]) ≤ 10 ∧
    ((client_t.mk [] none (some ⟨1, ⟨0, 5⟩, 4, []⟩)).current_session =
        some ⟨1, ⟨0, 5⟩, 4, []⟩ ∧
      (3 : Nat) < 4 + 2 ∧
      client_t.send_atom 3 (client_t.mk [] none (some ⟨1, ⟨0, 5⟩, 4, []⟩)) 2 =
        client_t.mk [] none (some ⟨1, ⟨0, 5⟩, 4, []⟩)) :=
  ⟨client_throttle_admission_bound.1 10 _,
    rfl, by norm_num,
    client_throttle_admission_bound.2 3 _ ⟨1, ⟨0, 5⟩, 4, []⟩ 2 rfl
      (by norm_num)⟩

/- The accounting invariant: released plus in-flight never exceeds sent. -/

lemma acct_step_inv (capacity : Nat) (st : acct_state_t) (cmd : client_cmd_t)
    (h : st.acked_total + client_inflight st.client ≤ st.sent_total) :
    (acct_step capacity st cmd).acked_total +
      client_inflight (acct_step capacity st cmd).client ≤
      (acct_step capacity st cmd).sent_total := by
  cases cmd with
  | pre_atoms r a =>
      simp only [acct_step, client_t.step]
      rw [inflight_on_pre_atoms]
      omega
  | go sid r =>
      simp only [acct_step, client_t.step]
      rw [inflight_on_go]
      omega
  | stop sid =>
      simp only [acct_step, client_t.step]
      have := inflight_on_stop st.client sid
      omega
  | ack_atoms sid r sz =>
      simp only [acct_step, client_t.step]
      rcases on_ack_atoms_cases st.client sid r sz with
        ⟨hok, s, hs, hsz, hinf⟩ | ⟨hne, heq⟩
      · rw [if_pos hok, hinf]
        have hc : client_inflight st.client = s.atom_throttler_acq := by
          unfold client_inflight
          rw [hs]
        omega
      · rw [if_neg hne, heq]
        omega
  | send_atom sz =>
      simp only [acct_step, client_t.step]
      rcases inflight_send_atom capacity st.client sz with
        ⟨hadm, heq, hle⟩ | ⟨hadm, heq⟩
      · rw [hadm, if_pos rfl, heq]
        omega
      · rw [hadm]
        simp only [Bool.false_eq_true, if_false]
        rw [heq]
        omega

lemma acct_run_inv (capacity : Nat) (cmds : List client_cmd_t) :
    ∀ st : acct_state_t,
      st.acked_total + client_inflight st.client ≤ st.sent_total →
      (cmds.foldl (acct_step capacity) st).acked_total +
        client_inflight (cmds.foldl (acct_step capacity) st).client ≤
        (cmds.foldl (acct_step capacity) st).sent_total := by
  induction cmds with
  | nil => intro st h; exact h
  | cons cmd cmds ih =>
      intro st h
      exact ih _ (acct_step_inv capacity st cmd h)

/-- Claim C5: an acknowledgment whose size exceeds the session's currently
held throttle reservation is rejected (with `ack_too_large`) and releases
nothing — the client is unchanged; and over every accounted run the total
capacity released by accepted acknowledgments never exceeds the total
capacity consumed by atoms actually sent. -/
theorem client_ack_release_bounded :
    (∀ (c : client_t) (s : session_t) (sid : Nat) (range : key_range_t)
        (size : Nat),
      c.current_session = some s → s.session_id = sid →
      s.atom_throttler_acq < size →
      c.on_ack_atoms sid range size = (handler_result_t.ack_too_large, c)) ∧
    (∀ (capacity : Nat) (cmds : List client_cmd_t),
      (acct_run capacity cmds).acked_total ≤
        (acct_run capacity cmds).sent_total) := by
  constructor
  · intro c s sid range size hs hid hsz
    unfold client_t.on_ack_atoms
    rw [hs]
    dsimp only
    rw [if_pos hid, if_neg (by omega)]
  · intro capacity cmds
    have := acct_run_inv capacity cmds ⟨client_init, 0, 0⟩ (by simp [client_inflight, client_init])
    exact Nat.le_trans (Nat.le_add_right _ _) this

/-- Witness for C5: a concrete oversized acknowledgment is rejected
unchanged, and a concrete accounted run keeps released below sent. -/
theorem client_ack_release_bounded_witness :
    ((client_t.mk [] none (some ⟨1, ⟨0, 5⟩, 4, []⟩)).current_session =
        some ⟨1, ⟨0, 5⟩, 4, []⟩ ∧
      (⟨1, ⟨0, 5⟩, 4, []⟩ : session_t).session_id = 1 ∧
      (⟨1, ⟨0, 5⟩, 4, []⟩ : session_t).atom_throttler_acq < 9 ∧
      (client_t.mk [] none (some ⟨1, ⟨0, 5⟩, 4, []⟩)).on_ack_atoms 1 ⟨0, 5⟩ 9 =
        (handler_result_t.ack_too_large,
          client_t.mk [] none (some ⟨1, ⟨0, 5⟩, 4, []⟩))) ∧
    (acct_run 10 [client_cmd_t.pre_atoms ⟨0, 50⟩ [],
        client_cmd_t.go 1 ⟨0, 50⟩, client_cmd_t.send_atom 5,
        client_cmd_t.ack_atoms 1 ⟨0, 50⟩ 5]).acked_total ≤
      (acct_run 10 [client_cmd_t.pre_atoms ⟨0, 50⟩ [],
        client_cmd_t.go 1 ⟨0, 50⟩, client_cmd_t.send_atom 5,
        client_cmd_t.ack_atoms 1 ⟨0, 50⟩ 5]).sent_total :=
  ⟨⟨rfl, rfl, by norm_num,
      client_ack_release_bounded.1 _ ⟨1, ⟨0, 5⟩, 4, []⟩ 1 ⟨0, 5⟩ 9 rfl rfl
        (by norm_num)⟩,
    client_ack_release_bounded.2 10 _⟩

/-- Claim C6 counterexample: the claim says every listed protocol
violation — including a conflicting overlapping pre-atoms re-request —
leaves the client's state unchanged.  On the concrete client with pending
range `[0, 10)` and one queued pre-atom, the overlapping non-identical
re-request for `[5, 15)` is reported as a protocol error yet the state
changes: the later request wins and the former's unconsumed queue is
discarded. -/
theorem client_pre_atoms_violation_mutates :
    ((client_t.mk [⟨⟨2, 3⟩, 0⟩] (some ⟨0, 10⟩) none).on_pre_atoms
        ⟨5, 15⟩ [⟨⟨7, 8⟩, 1⟩]).1 = handler_result_t.protocol_error_overlap ∧
    ((client_t.mk [⟨⟨2, 3⟩, 0⟩] (some ⟨0, 10⟩) none).on_pre_atoms
        ⟨5, 15⟩ [⟨⟨7, 8⟩, 1⟩]).2 ≠
      client_t.mk [⟨⟨2, 3⟩, 0⟩] (some ⟨0, 10⟩) none := by
  decide

/-- Claim C6 (amended): every protocol violation on `stop`, `ack_atoms`
and `go` — unknown or mismatched session id, ack size exceeding the held
reservation, `go` range outside the queued pre-atom range — rejects only
the offending request and leaves the client's state unchanged; in
particular a `stop` whose session id does not match the active session is
a no-op reported as ignored.  A conflicting overlapping pre-atoms
re-request, however, is reported as a protocol error but does change
state: the later request wins. -/
theorem client_protocol_violations_reject (c : client_t) : 
    (c.current_session = none → ∀ sid,
      c.on_stop sid = (handler_result_t.ignored, c)) ∧
    (∀ s sid, c.current_session = some s → s.session_id ≠ sid →
      c.on_stop sid = (handler_result_t.ignored, c)) ∧
    (c.current_session = none → ∀ sid r sz,
      c.on_ack_atoms sid r sz = (handler_result_t.bad_session, c)) ∧
    (∀ s sid r sz, c.current_session = some s → s.session_id ≠ sid →
      c.on_ack_atoms sid r sz = (handler_result_t.bad_session, c)) ∧
    (∀ s sid r sz, c.current_session = some s → s.session_id = sid →
      s.atom_throttler_acq < sz →
      c.on_ack_atoms sid r sz = (handler_result_t.ack_too_large, c)) ∧
    (∀ sid range q, c.current_session = none → c.pre_atom_range = some q →
      range.is_subrange q = false →
      c.on_go sid range = (handler_result_t.range_mismatch, c)) ∧
    (∀ r range atoms, c.pre_atom_range = some r → range ≠ r →
      range.overlaps r = true →
      (c.on_pre_atoms range atoms).1 =
        handler_result_t.protocol_error_overlap) := by
  refine ⟨?_, ?_, ?_, ?_, ?_, ?_, ?_⟩
  · intro hs sid
    unfold client_t.on_stop
    rw [hs]
  · intro s sid hs hid
    unfold client_t.on_stop
    rw [hs]
    dsimp only
    rw [if_neg hid]
  · intro hs sid r sz
    unfold client_t.on_ack_atoms
    rw [hs]
  · intro s sid r sz hs hid
    unfold client_t.on_ack_atoms
    rw [hs]
    dsimp only
    rw [if_neg hid]
  · intro s sid r sz hs hid hsz
    unfold client_t.on_ack_atoms
    rw [hs]
    dsimp only
    rw [if_pos hid, if_neg (by omega)]
  · intro sid range q hs hq hsub
    unfold client_t.on_go
    rw [hs]
    dsimp only
    rw [hq]
    dsimp only
    rw [if_neg (by simp [hsub])]
  · intro r range atoms hq hne hov
    unfold client_t.on_pre_atoms
    rw [hq]
    dsimp only
    rw [if_neg hne, if_pos hov]

/-- Witness for the amended C6 on concrete clients, discharging each
conjunct's hypotheses at concrete inputs. -/
theorem client_protocol_violations_reject_witness :
    (client_t.mk [] (some ⟨0, 10⟩) none).on_stop 1 =
      (handler_result_t.ignored, client_t.mk [] (some ⟨0, 10⟩) none) ∧
    (client_t.mk [] none (some ⟨1, ⟨0, 5⟩, 4, []⟩)).on_stop 2 =
      (handler_result_t.ignored,
        client_t.mk [] none (some ⟨1, ⟨0, 5⟩, 4, []⟩)) ∧
    (client_t.mk [] (some ⟨0, 10⟩) none).on_ack_atoms 1 ⟨0, 5⟩ 3 =
      (handler_result_t.bad_session, client_t.mk [] (some ⟨0, 10⟩) none) ∧
    (client_t.mk [] none (some ⟨1, ⟨0, 5⟩, 4, []⟩)).on_ack_atoms 2 ⟨0, 5⟩ 3 =
      (handler_result_t.bad_session,
        client_t.mk [] none (some ⟨1, ⟨0, 5⟩, 4, []⟩)) ∧
    (client_t.mk [] none (some ⟨1, ⟨0, 5⟩, 4, []⟩)).on_ack_atoms 1 ⟨0, 5⟩ 9 =
      (handler_result_t.ack_too_large,
        client_t.mk [] none (some ⟨1, ⟨0, 5⟩, 4, []⟩)) ∧
    (client_t.mk [] (some ⟨0, 10⟩) none).on_go 1 ⟨5, 15⟩ =
      (handler_result_t.range_mismatch, client_t.mk [] (some ⟨0, 10⟩) none) ∧
    ((client_t.mk [] (some ⟨0, 10⟩) none).on_pre_atoms ⟨5, 15⟩ []).1 =
      handler_result_t.protocol_error_overlap :=
  ⟨(client_protocol_violations_reject _).1 rfl 1,
    (client_protocol_violations_reject _).2.1 ⟨1, ⟨0, 5⟩, 4, []⟩ 2 rfl
      (by decide),
    (client_protocol_violations_reject _).2.2.1 rfl 1 ⟨0, 5⟩ 3,
    (client_protocol_violations_reject _).2.2.2.1 ⟨1, ⟨0, 5⟩, 4, []⟩ 2
      ⟨0, 5⟩ 3 rfl (by decide),
    (client_protocol_violations_reject _).2.2.2.2.1 ⟨1, ⟨0, 5⟩, 4, []⟩ 1
      ⟨0, 5⟩ 9 rfl rfl (by decide),
    (client_protocol_violations_reject _).2.2.2.2.2.1 1 ⟨5, 15⟩ ⟨0, 10⟩
      rfl rfl (by decide),
    (client_protocol_violations_reject _).2.2.2.2.2.2 ⟨0, 10⟩ ⟨5, 15⟩ []
      rfl (by decide) (by decide)⟩

/- The fifo reorder-buffer invariant: the output so far is exactly the
initial segment of tokens below `next`, and the buffer holds exactly the
delivered tokens that are still waiting for their turn. -/


def fifo_inv (delivered : List Nat) (s : fifo_sink_t) : Prop :=
  s.output = List.range s.next ∧
  s.buffer.Nodup ∧
  (∀ t, t ∈ s.buffer ↔ (t ∈ delivered ∧ s.next ≤ t)) ∧
  (∀ k, k < s.next → k ∈ delivered)

lemma fifo_drain_succ (fuel : Nat) (s : fifo_sink_t) :
    fifo_drain (fuel + 1) s =
      if s.next ∈ s.buffer then
        fifo_drain fuel
          ⟨s.next + 1, s.buffer.erase s.next, s.output ++ [s.next]⟩
      else s :=
  rfl

lemma fifo_drain_inv (fuel : Nat) :
    ∀ (s : fifo_sink_t) (delivered : List Nat), fifo_inv delivered s →
      fifo_inv delivered (fifo_drain fuel s) ∧
      (s.buffer.length ≤ fuel →
        (fifo_drain fuel s).next ∉ (fifo_drain fuel s).buffer) := by
  induction fuel with
  | zero =>
      intro s delivered hinv
      refine ⟨hinv, fun hlen => ?_⟩
      have hb : s.buffer = [] :=
        List.eq_nil_of_length_eq_zero (Nat.le_zero.mp hlen)
      simp [fifo_drain, hb]
  | succ fuel ih =>
      intro s delivered hinv
      obtain ⟨hout, hnd, hbuf, hlow⟩ := hinv
      rw [fifo_drain_succ]
      by_cases hmem : s.next ∈ s.buffer
      · rw [if_pos hmem]
        have hinv' : fifo_inv delivered
            ⟨s.next + 1, s.buffer.erase s.next, s.output ++ [s.next]⟩ := by
          refine ⟨?_, ?_, ?_, ?_⟩
          · dsimp only
            rw [hout, List.range_succ]
          · exact hnd.erase _
          · intro t
            dsimp only
            rw [hnd.mem_erase_iff, hbuf t]
            constructor
            · rintro ⟨hne, hdel, hle⟩
              exact ⟨hdel, by omega⟩
            · rintro ⟨hdel, hle⟩
              exact ⟨by omega, hdel, by omega⟩
          · intro k hk
            dsimp only at hk
            by_cases hke : k = s.next
            · subst hke
              exact ((hbuf _).mp hmem).1
            · exact hlow k (by omega)
        obtain ⟨h1, h2⟩ := ih _ delivered hinv'
        refine ⟨h1, fun hlen => h2 ?_⟩
        dsimp only
        rw [List.length_erase_of_mem hmem]
        have hpos : 0 < s.buffer.length := List.length_pos_of_mem hmem
        omega
      · rw [if_neg hmem]
        exact ⟨⟨hout, hnd, hbuf, hlow⟩, fun _ => hmem⟩

lemma fifo_deliver_inv (s : fifo_sink_t) (delivered : List Nat) (t : Nat)
    (hinv : fifo_inv delivered s) (ht : t ∉ delivered) :
    fifo_inv (delivered ++ [t]) (fifo_deliver s t) ∧
    (fifo_deliver s t).next ∉ (fifo_deliver s t).buffer := by
  obtain ⟨hout, hnd, hbuf, hlow⟩ := hinv
  have hnextle : s.next ≤ t := by
    by_contra hlt
    push_neg at hlt
    exact ht (hlow t hlt)
  have hinv0 : fifo_inv (delivered ++ [t])
      ⟨s.next, t :: s.buffer, s.output⟩ := by
    refine ⟨hout, ?_, ?_, ?_⟩
    · refine List.nodup_cons.mpr ⟨?_, hnd⟩
      intro htb
      exact ht ((hbuf t).mp htb).1
    · intro x
      constructor
      · intro hx
        rcases List.mem_cons.mp hx with rfl | hx2
        · exact ⟨List.mem_append_right _ (List.mem_singleton_self _), hnextle⟩
        · obtain ⟨hdel, hle⟩ := (hbuf x).mp hx2
          exact ⟨List.mem_append_left _ hdel, hle⟩
      · rintro ⟨hx, hle⟩
        rcases List.mem_append.mp hx with hdel | hsing
        · exact List.mem_cons.mpr (Or.inr ((hbuf x).mpr ⟨hdel, hle⟩))
        · exact List.mem_cons.mpr (Or.inl (List.mem_singleton.mp hsing))
    · intro k hk
      exact List.mem_append_left _ (hlow k hk)
  have hfin := fifo_drain_inv (s.buffer.length + 1)
    ⟨s.next, t :: s.buffer, s.output⟩ (delivered ++ [t]) hinv0
  exact ⟨hfin.1, hfin.2 (by simp)⟩

lemma fifo_run_aux (toks : List Nat) :
    ∀ (pre : List Nat) (s : fifo_sink_t),
      (pre ++ toks).Nodup → fifo_inv pre s → s.next ∉ s.buffer →
      fifo_inv (pre ++ toks) (toks.foldl fifo_deliver s) ∧
      (toks.foldl fifo_deliver s).next ∉
        (toks.foldl fifo_deliver s).buffer := by
  induction toks with
  | nil =>
      intro pre s _ hinv hst
      simpa using ⟨hinv, hst⟩
  | cons t ts ih =>
      intro pre s hnd hinv hst
      have ht : t ∉ pre := by
        have hdisj := List.disjoint_of_nodup_append hnd
        intro htp
        exact hdisj htp (List.mem_cons_self t ts)
      have hd := fifo_deliver_inv s pre t hinv ht
      have hnd2 : ((pre ++ [t]) ++ ts).Nodup := by
        simpa [List.append_assoc] using hnd
      have hres := ih (pre ++ [t]) (fifo_deliver s t) hnd2 hd.1 hd.2
      simpa [List.append_assoc] using hres

lemma fifo_run_perm_output (N : Nat) (perm : List Nat)
    (h : perm.Perm (List.range N)) :
    (fifo_run perm).output = List.range N := by
  have hnd : perm.Nodup := h.nodup_iff.mpr (List.nodup_range N)
  have hmem : ∀ x, x ∈ perm ↔ x < N := by
    intro x
    rw [h.mem_iff, List.mem_range]
  have hinv0 : fifo_inv ([] : List Nat) fifo_init := by
    refine ⟨rfl, List.nodup_nil, ?_, ?_⟩ <;> simp [fifo_init]
  have hrun := fifo_run_aux perm [] fifo_init (by simpa using hnd) hinv0
    (by simp [fifo_init])
  rw [List.nil_append] at hrun
  unfold fifo_run
  obtain ⟨⟨hout, hnodup, hbuf, hlow⟩, hstable⟩ := hrun
  have hle : (List.foldl fifo_deliver fifo_init perm).next ≤ N := by
    by_contra hlt
    push_neg at hlt
    have hNd : N ∈ perm := hlow N hlt
    exact absurd ((hmem N).mp hNd) (lt_irrefl N)
  have hge : N ≤ (List.foldl fifo_deliver fifo_init perm).next := by
    by_contra hlt
    push_neg at hlt
    have hin : (List.foldl fifo_deliver fifo_init perm).next ∈
        (List.foldl fifo_deliver fifo_init perm).buffer :=
      (hbuf _).mpr ⟨(hmem _).mpr hlt, Nat.le_refl _⟩
    exact hstable hin
  rw [hout, Nat.le_antisymm hle hge]

/-- Claim C1: for every client and every permutation of delivery of N
inbound messages bearing the write tokens 0..N-1, the ordering enforcer
buffers any message that is not the next expected token and releases
buffered messages in ascending token order, so the sequence of handler
invocations applied to the client's state is exactly the tokens' ascending
order — the same observable order for every permutation of the transport. -/
theorem backfiller_fifo_ordering (N : Nat) (perm : List Nat)
    (msg : Nat → backfill_msg_t) (c : client_t)
    (h : perm.Perm (List.range N)) :
    (fifo_run perm).output = List.range N ∧
    ((fifo_run perm).output.map msg).foldl client_t.handle c =
      ((List.range N).map msg).foldl client_t.handle c := by
  have hout := fifo_run_perm_output N perm h
  exact ⟨hout, by rw [hout]⟩

/-- Witness for C1: the out-of-order arrival sequence [2, 0, 1] of three
tokens is reordered into [0, 1, 2] and drives the handlers in that
ascending order. -/
theorem backfiller_fifo_ordering_witness :
    ([2, 0, 1] : List Nat).Perm (List.range 3) ∧
    ((fifo_run [2, 0, 1]).output = List.range 3 ∧
      ((fifo_run [2, 0, 1]).output.map (fun t => backfill_msg_t.stop t)).foldl
          client_t.handle client_init =
        ((List.range 3).map (fun t => backfill_msg_t.stop t)).foldl
          client_t.handle client_init) :=
  ⟨by decide,
    backfiller_fifo_ordering 3 [2, 0, 1] (fun t => backfill_msg_t.stop t)
      client_init (by decide)⟩
